import Mathlib

/-!
Verification development for the extraction-debugger pipeline.

This file gives a shallow embedding of the pure cores of the repository:

* `models.py`: the JSON-Schema-to-model compiler (`get_field_type`,
  `create_model_from_schema`), with Python dict insertion semantics for the
  field-definition dictionaries.
* `extract.py`: the batch orchestrator (`process_runs`, a transition system
  for the 5-slot semaphore), and the pure parts of `display_results`
  (field-name lookup chain, numeric mean, most-common value following the
  documented behaviour of `statistics.mode`, which returns the first mode
  encountered in the data).
* `extractors.py`: the strategy factory (`ExtractorFactory.create_extractor`)
  and the per-run try/except error swallowing.

Machine floats of the source are modelled as exact rationals; the claims
settled here only evaluate them at exact values.
-/

/-- Model of Python `str.lower()` (per-character lowercasing). -/
def py_lower (s : String) : String := ⟨s.data.map Char.toLower⟩

/-- Model of Python `str.replace(' ', '_')`: the pattern is a single
character, so it is a per-character substitution. -/
def py_underscore (s : String) : String :=
  ⟨s.data.map (fun c => if c = ' ' then '_' else c)⟩

/-- The internal field identifier of `models.py`:
`field_name.lower().replace(' ', '_')`. -/
def normalize_field_name (s : String) : String := py_underscore (py_lower s)

/-- Scalar JSON values as they appear in an extraction-result record
(`json.loads` output / `model_dump`).  Numbers (Python `int`/`float`) are
modelled as exact rationals. -/
inductive PyVal where
  | str (s : String)
  | num (q : Rat)
  | bool (b : Bool)
deriving DecidableEq

/-- Boolean equality on optional result values, fixed to agree with the
decidable equality so that multiplicity counts elaborate uniformly. -/
@[reducible] instance : BEq (Option PyVal) := instBEqOfDecidableEq

/-- An extraction result record, as observed through Python's `dict.get`:
a missing key and a key stored with value `None` are both `none`. -/
def ResultRecord : Type := String → Option PyVal

/-- The four key variants tried by `display_results` for a declared output
field name, in source order: exact, spaces→underscores, lowercased,
lowercased then spaces→underscores. -/
def field_name_variants (name : String) : List String :=
  [name, py_underscore name, py_lower name, py_underscore (py_lower name)]

/-- The field-lookup chain of `display_results` (extract.py lines 336-347 and
362-369): try `result.get(field_name)`, then the underscored name, then the
lowercased name, then the lowercased underscored name; each step runs only
if the previous produced `None`. -/
def get_field_value (result : ResultRecord) (name : String) : Option PyVal :=
  match result name with
  | some v => some v
  | none =>
    match result (py_underscore name) with
    | some v => some v
    | none =>
      match result (py_lower name) with
      | some v => some v
      | none => result (py_underscore (py_lower name))

/-- Python `str()` on a scalar result value, used when filling table rows.
The exact decimal rendering of Python floats is abstracted by the decimal
rendering of the rational. -/
def py_str (v : PyVal) : String :=
  match v with
  | .str s => s
  | .num q => toString q
  | .bool b => if b then "True" else "False"

/-- A cell of the Individual Results table (extract.py lines 336-350):
the looked-up value rendered with `str`, defaulting to `'N/A'` when no
key variant matches. -/
def result_row_value (result : ResultRecord) (name : String) : String :=
  match get_field_value result name with
  | some v => py_str v
  | none => "N/A"

/-- The per-field value list built by the summary part of `display_results`
(extract.py lines 361-370): one entry per run, `none` when no key variant
matched (the summary path appends the raw `None`, not `'N/A'`). -/
def field_values (results : List ResultRecord) (name : String) : List (Option PyVal) :=
  results.map (fun r => get_field_value r name)

/-- The numeric test and numeric value of a summary entry:
`isinstance(v, (int, float))` — which in Python also accepts `bool`, a
subclass of `int` (`True` counts as 1, `False` as 0); `None` and strings
are rejected. -/
def to_number : Option PyVal → Option Rat
  | some (.num q) => some q
  | some (.bool b) => some (if b then 1 else 0)
  | _ => none

/-- The list `numeric_values` of `display_results` (extract.py line 373). -/
def numeric_values (values : List (Option PyVal)) : List Rat :=
  values.filterMap to_number

/-- `statistics.mean` on a non-empty list, over exact rationals. -/
def py_mean (l : List Rat) : Rat := l.sum / (l.length : Rat)

/-- Round to the nearest integer, ties to even — the rounding used by
`format(x, '.2f')` on an exactly representable value. -/
def round_half_even (q : Rat) : Int :=
  if q - ⌊q⌋ < 1/2 then ⌊q⌋
  else if (1 : Rat)/2 < q - ⌊q⌋ then ⌊q⌋ + 1
  else if ⌊q⌋ % 2 = 0 then ⌊q⌋ else ⌊q⌋ + 1

/-- The two-decimal rendering `f"...: {avg:.2f}"` of the summary block,
modelled over exact rationals. -/
def format_two_dec (q : Rat) : String :=
  (if round_half_even (q * 100) < 0 then "-" else "") ++
  toString ((round_half_even (q * 100)).natAbs / 100) ++ "." ++
  (if (round_half_even (q * 100)).natAbs % 100 < 10 then "0" else "") ++
  toString ((round_half_even (q * 100)).natAbs % 100)

/-- The average computed by the summary block (extract.py lines 373-379):
present exactly when the numeric subset of the value list is non-empty. -/
def summary_average (values : List (Option PyVal)) : Option Rat :=
  if numeric_values values = [] then none
  else some (py_mean (numeric_values values))

/-- The distinct values of a list in first-occurrence order — the key order
of `collections.Counter` built from the list. -/
def py_distinct {α : Type} [DecidableEq α] : List α → List α
  | [] => []
  | a :: rest => a :: py_distinct (rest.filter (fun b => b ≠ a))
termination_by l => l.length
decreasing_by simp; exact Nat.lt_succ_of_le (List.length_filter_le _ _)

/-- Left fold selecting the candidate with the greatest multiplicity in `l`,
replacing the current best only on a strictly greater count, so the
earliest-encountered mode wins ties. -/
def mode_best {α : Type} [DecidableEq α] (l : List α) : Option α → List α → Option α
  | best, [] => best
  | none, c :: cs => mode_best l (some c) cs
  | some b, c :: cs =>
      mode_best l (some (if l.count b < l.count c then c else b)) cs

/-- Model of `statistics.mode` (Python ≥ 3.8): the most frequent value,
returning the first mode encountered in the data on ties; `none` only on an
empty list. -/
def py_mode {α : Type} [DecidableEq α] (l : List α) : Option α :=
  mode_best l none (py_distinct l)

/-- The `most_common` value of the summary block (extract.py line 383). -/
def most_common_value (values : List (Option PyVal)) : Option (Option PyVal) :=
  py_mode values

/-- The aggregation step of `process_runs` (extract.py lines 312-313):
`asyncio.gather` yields one outcome per task in submission order, and the
return value keeps the non-`None` results in that order. -/
def process_runs {α : Type} (outcomes : List (Option α)) : List α :=
  outcomes.filterMap id

/-- The semaphore bound of `process_runs`: `Semaphore(5)`. -/
def max_concurrent_runs : Nat := 5

/-- State of a batch of runs: which run indices still wait on the semaphore,
which are in flight (inside the semaphore), and which have finished. -/
structure BatchState where
  pending : List Nat
  inFlight : List Nat
  finished : List Nat

/-- One scheduler step of the batch: a pending run may enter the semaphore
only while fewer than `max_concurrent_runs` are in flight; an in-flight run
may finish (successfully or not) at any time. -/
inductive BatchStep : BatchState → BatchState → Prop where
  | acquire (s : BatchState) (i : Nat) (hp : i ∈ s.pending)
      (hc : s.inFlight.length < max_concurrent_runs) :
      BatchStep s ⟨s.pending.erase i, i :: s.inFlight, s.finished⟩
  | finish (s : BatchState) (i : Nat) (hf : i ∈ s.inFlight) :
      BatchStep s ⟨s.pending, s.inFlight.erase i, i :: s.finished⟩

/-- Initial batch state: `process_runs` creates one task per requested run
before any completes. -/
def batch_init (numRuns : Nat) : BatchState := ⟨List.range numRuns, [], []⟩

/-- A state the batch scheduler can reach from `batch_init numRuns`. -/
def BatchReachable (numRuns : Nat) (s : BatchState) : Prop :=
  Relation.ReflTransGen BatchStep (batch_init numRuns) s

/-- Failure of one strategy call: network error, malformed response, or
provider error. -/
inductive ExtractErr where
  | network (msg : String)
  | malformed (msg : String)
  | provider (msg : String)
deriving DecidableEq

/-- The per-run `try/except` of the extractors and of
`extract_currency_async`: a raised error is logged and turned into the
failed result `None`; a success is returned as is. -/
def extract_run_result {α : Type} (call : Except ExtractErr α) : Option α :=
  match call with
  | .ok v => some v
  | .error _ => none

/-- A whole batch given the outcome of each run's strategy call, composing
the per-run catch with the `process_runs` aggregation. -/
def run_batch {α : Type} (calls : List (Except ExtractErr α)) : List α :=
  process_runs (calls.map extract_run_result)

/-- The three extraction strategies of `extractors.py`. -/
inductive Extractor where
  | jsonMode
  | instructorMode
  | structuredOutput
deriving DecidableEq

/-- Configuration failure: the `ValueError` raised by the factory for an
unknown extraction method name. -/
inductive ConfigErr where
  | unknownMethod (method : String)
deriving DecidableEq

/-- `ExtractorFactory.create_extractor` (extractors.py lines 170-180). -/
def create_extractor (method : String) : Except ConfigErr Extractor :=
  if method = "json_mode" then .ok .jsonMode
  else if method = "instructor" then .ok .instructorMode
  else if method = "structured_output" then .ok .structuredOutput
  else .error (.unknownMethod method)

/-- Observable actions of one run of `extract_currency_async`: creating the
extractor via the factory, and invoking the strategy's remote call. -/
inductive CallEvent where
  | factoryCall
  | networkCall
deriving DecidableEq

/-- `extract_currency_async` (extract.py lines 280-300), instrumented with
its trace of actions: the factory runs inside the `try` block before the
strategy call, so a factory failure is caught and returns `None` without any
network call; otherwise the strategy call (abstracted by `callModel`) runs. -/
def extract_currency_async {α : Type} (method : String)
    (callModel : Extractor → Option α) : Option α × List CallEvent :=
  match create_extractor method with
  | .error _ => (none, [CallEvent.factoryCall])
  | .ok ex => (callModel ex, [CallEvent.factoryCall, CallEvent.networkCall])

/-- Python-level failure propagated out of the schema compiler: the
`KeyError` raised by `item_schema['properties']`. -/
inductive PyErr where
  | keyError (key : String)
deriving DecidableEq

/-- A JSON Schema node as read by `models.py`: the keys `type`, `format`,
`items`, `properties`, `required`, `title`, `description`.  `Option` marks
keys that may be absent; an absent `required` is read as `[]` by
`schema.get('required', [])`, so it is carried directly as a list. -/
inductive SchemaNode where
  | mk (ty : Option String) (fmt : Option String) (items : Option SchemaNode)
      (props : Option (List (String × SchemaNode))) (req : List String)
      (title : Option String) (descr : Option String)

/-- The `type` key of a schema node. -/
def stype : SchemaNode → Option String
  | .mk ty _ _ _ _ _ _ => ty

/-- The `format` key of a schema node. -/
def sformat : SchemaNode → Option String
  | .mk _ fmt _ _ _ _ _ => fmt

/-- The `items` key of a schema node. -/
def sitems : SchemaNode → Option SchemaNode
  | .mk _ _ items _ _ _ _ => items

/-- The `properties` key of a schema node. -/
def sprops : SchemaNode → Option (List (String × SchemaNode))
  | .mk _ _ _ props _ _ _ => props

/-- The `required` list of a schema node (empty when absent). -/
def sreq : SchemaNode → List String
  | .mk _ _ _ _ req _ _ => req

/-- The `title` key of a schema node. -/
def stitle : SchemaNode → Option String
  | .mk _ _ _ _ _ title _ => title

/-- The `description` key of a schema node. -/
def sdescr : SchemaNode → Option String
  | .mk _ _ _ _ _ _ descr => descr

/-- A compiled field type.  `option t` is `Optional[t]` (nullable);
`model title fields` is a synthesized nested model whose fields are
`(python_name, type, alias, description)` tuples; `any` is the permissive
fallback `Any`. -/
inductive FieldType where
  | date
  | str
  | float
  | bool
  | any
  | option (t : FieldType)
  | list (t : FieldType)
  | model (title : String) (fields : List (String × FieldType × String × String))

/-- Python `dict` assignment `d[k] = v` on an insertion-ordered association
list: replaces in place when the key exists, else appends. -/
def dict_insert {α : Type} (k : String) (v : α) :
    List (String × α) → List (String × α)
  | [] => [(k, v)]
  | (k2, v2) :: rest =>
      if k2 = k then (k, v) :: rest else (k2, v2) :: dict_insert k v rest

/-- Build a Python dict from a sequence of assignments, in order. -/
def dictify {α : Type} (entries : List (String × α)) : List (String × α) :=
  entries.foldl (fun acc e => dict_insert e.1 e.2 acc) []

mutual

/-- `get_field_type` of models.py (lines 31-85): recursively map a schema
node to a Python type.  `string`+`format=date` → `date`; `string` → `str`;
`number` → `float`; `boolean` → `bool`; `array` with object items → a list
of a synthesized item model (raising `KeyError` if the item schema has no
`properties` key); `array` with other items → a list of the item type;
`array` without `items`, and any unrecognized or absent `type`, fall through
to `Any`; `object` → a synthesized nested model over
`field_schema.get('properties', {})` (an absent `properties` silently
yields an empty model). -/
def get_field_type : SchemaNode → Except PyErr FieldType
  | .mk ty fmt items props _req title _descr =>
    match ty with
    | some "string" => if fmt = some "date" then .ok .date else .ok .str
    | some "number" => .ok .float
    | some "boolean" => .ok .bool
    | some "array" =>
      match items with
      | some (.mk ity ifmt iitems iprops ireq ititle idescr) =>
        if ity = some "object" then
          match iprops with
          | none => .error (.keyError "properties")
          | some ps =>
            match build_nested_fields ps with
            | .error e => .error e
            | .ok fs => .ok (.list (.model (ititle.getD "Item") (dictify fs)))
        else
          match get_field_type (.mk ity ifmt iitems iprops ireq ititle idescr) with
          | .error e => .error e
          | .ok t => .ok (.list t)
      | none => .ok .any
    | some "object" =>
      match props with
      | some ps =>
        match build_nested_fields ps with
        | .error e => .error e
        | .ok fs => .ok (.model (title.getD "NestedModel") (dictify fs))
      | none => .ok (.model (title.getD "NestedModel") (dictify []))
    | _ => .ok .any
termination_by s => sizeOf s
decreasing_by all_goals (simp_wf; omega)

/-- The field-definition entries built for a nested or item model (models.py
lines 48-57 and 68-77), in property order: key is the normalized name, the
value keeps the recursively computed type, the original name as alias, and
`field_schema.get('description', '')`.  No `Optional` wrapper and no
`required` list is consulted here. -/
def build_nested_fields :
    List (String × SchemaNode) → Except PyErr (List (String × FieldType × String × String))
  | [] => .ok []
  | (n, s) :: rest =>
    match get_field_type s with
    | .error e => .error e
    | .ok t =>
      match build_nested_fields rest with
      | .error e => .error e
      | .ok fs => .ok ((normalize_field_name n, t, n, (sdescr s).getD "") :: fs)
termination_by l => sizeOf l

end

/-- A compiled model: title plus insertion-ordered field definitions
`(python_name, type, alias, description)`. -/
structure PyModel where
  title : String
  fields : List (String × FieldType × String × String)

/-- The top-level field-definition entries of `create_model_from_schema`
(models.py lines 88-108), in property order: type wrapped in `Optional`
exactly when the original field name is not in the `required` list. -/
def build_top_fields (required_fields : List String) :
    List (String × SchemaNode) → Except PyErr (List (String × FieldType × String × String))
  | [] => .ok []
  | (n, s) :: rest =>
    match get_field_type s with
    | .error e => .error e
    | .ok t =>
      match build_top_fields required_fields rest with
      | .error e => .error e
      | .ok fs =>
        .ok ((normalize_field_name n,
              (if required_fields.contains n then t else .option t), n,
              (sdescr s).getD "") :: fs)

/-- `create_model_from_schema` of models.py (lines 22-117) on an in-memory
schema: reads `schema.get('required', [])`, walks
`schema.get('properties', {}).items()` building the field-definition dict,
and titles the model `schema.get('title', 'DynamicModel')`. -/
def create_model_from_schema (schema : SchemaNode) : Except PyErr PyModel :=
  match build_top_fields (sreq schema) ((sprops schema).getD []) with
  | .error e => .error e
  | .ok fs => .ok ⟨(stitle schema).getD "DynamicModel", dictify fs⟩

/-- Modelled from the words of the claim: the scalar type mapping
`string`+`format=date` → date, `string` → text, `number` → floating point,
`boolean` → boolean, anything else → untyped.  Stated independently of
`get_field_type` to compare the compiler against the claim. -/
def spec_scalar_field_type (s : SchemaNode) : FieldType :=
  match stype s with
  | some "string" => if sformat s = some "date" then .date else .str
  | some "number" => .float
  | some "boolean" => .bool
  | _ => .any

/-- A schema node is scalar when its `type` is neither `object` nor
`array`. -/
def is_scalar_schema (s : SchemaNode) : Prop :=
  stype s ≠ some "object" ∧ stype s ≠ some "array"

instance (s : SchemaNode) : Decidable (is_scalar_schema s) := by
  unfold is_scalar_schema; infer_instance

mutual

/-- No `Optional` wrapper occurs anywhere in a field type. -/
def no_opt : FieldType → Bool
  | .date => true
  | .str => true
  | .float => true
  | .bool => true
  | .any => true
  | .option _ => false
  | .list t => no_opt t
  | .model _ fs => no_opt_fields fs
termination_by t => sizeOf t

/-- No `Optional` wrapper occurs in any field of a field-definition list. -/
def no_opt_fields : List (String × FieldType × String × String) → Bool
  | [] => true
  | (_, t, _, _) :: rest => no_opt t && no_opt_fields rest
termination_by l => sizeOf l

end

mutual

/-- Erase every `required` list in a schema tree. -/
def erase_req : SchemaNode → SchemaNode
  | .mk ty fmt items props _req title descr =>
      .mk ty fmt (erase_req_item items) (erase_req_props props) [] title descr
termination_by s => sizeOf s

/-- Erase every `required` list under an optional `items` subtree. -/
def erase_req_item : Option SchemaNode → Option SchemaNode
  | none => none
  | some s => some (erase_req s)
termination_by o => sizeOf o

/-- Erase every `required` list under an optional `properties` value. -/
def erase_req_props :
    Option (List (String × SchemaNode)) → Option (List (String × SchemaNode))
  | none => none
  | some ps => some (erase_req_list ps)
termination_by o => sizeOf o

/-- Erase every `required` list under a property list. -/
def erase_req_list : List (String × SchemaNode) → List (String × SchemaNode)
  | [] => []
  | (n, s) :: rest => (n, erase_req s) :: erase_req_list rest
termination_by l => sizeOf l

end

/-- Erase the `required` lists of every property subtree while keeping the
top-level `required` list. -/
def erase_nested_req : SchemaNode → SchemaNode
  | .mk ty fmt items props req title descr =>
      .mk ty fmt items (erase_req_props props) req title descr

/-- A plain `string`-typed schema node. -/
def string_node : SchemaNode := .mk (some "string") none none none [] none none

/-- A plain `number`-typed schema node. -/
def number_node : SchemaNode := .mk (some "number") none none none [] none none

/-- Schema whose two scalar property names collapse to the same normalized
identifier `a_b`. -/
def collision_schema : SchemaNode :=
  .mk (some "object") none none
    (some [("A B", string_node), ("a_b", string_node)]) [] none none

/-- Schema with two property names collapsing to `a_b` but different types,
so the surviving field definition shows which entry won. -/
def alias_collision_schema : SchemaNode :=
  .mk (some "object") none none
    (some [("A B", string_node), ("a_b", number_node)]) [] none none

/-- A schema node of type `object` with no `properties` key. -/
def propertyless_object : SchemaNode :=
  .mk (some "object") none none none [] none none

/-- Schema with a nested `object` property lacking `properties`. -/
def missing_props_schema : SchemaNode :=
  .mk (some "object") none none
    (some [("inner", propertyless_object)]) [] none none

/-- An `array` schema node whose `items` is an `object` without
`properties`. -/
def missing_props_array_node : SchemaNode :=
  .mk (some "array") none (some propertyless_object) none [] none none

/-- A scalar invoice-like schema with a date field and a required number
field. -/
def sample_scalar_schema : SchemaNode :=
  .mk (some "object") none none
    (some [("Invoice Date",
             .mk (some "string") (some "date") none none [] none
               (some "date of the invoice")),
           ("Total", number_node)])
    ["Total"] (some "Invoice") none

/-- A one-property schema whose name carries a space and capitals. -/
def vat_schema : SchemaNode :=
  .mk (some "object") none none
    (some [("VAT Amount", number_node)]) [] none none

/-! ## Helper lemmas -/

theorem get_field_value_exact {result : ResultRecord} {name : String} {v : PyVal}
    (h : result name = some v) : get_field_value result name = some v := by
  simp [get_field_value, h]

theorem get_field_value_underscored {result : ResultRecord} {name : String} {v : PyVal}
    (h0 : result name = none) (h : result (py_underscore name) = some v) :
    get_field_value result name = some v := by
  simp [get_field_value, h0, h]

theorem get_field_value_lowered {result : ResultRecord} {name : String} {v : PyVal}
    (h0 : result name = none) (h1 : result (py_underscore name) = none)
    (h : result (py_lower name) = some v) :
    get_field_value result name = some v := by
  simp [get_field_value, h0, h1, h]

theorem get_field_value_lowered_underscored {result : ResultRecord} {name : String}
    {v : PyVal} (h0 : result name = none) (h1 : result (py_underscore name) = none)
    (h2 : result (py_lower name) = none)
    (h : result (py_underscore (py_lower name)) = some v) :
    get_field_value result name = some v := by
  simp [get_field_value, h0, h1, h2, h]

theorem get_field_value_none {result : ResultRecord} {name : String}
    (h : ∀ k ∈ field_name_variants name, result k = none) :
    get_field_value result name = none := by
  simp only [field_name_variants, List.mem_cons, List.not_mem_nil, or_false,
    forall_eq_or_imp, forall_eq] at h
  simp [get_field_value, h.1, h.2.1, h.2.2.1, h.2.2.2]

theorem result_row_value_na {result : ResultRecord} {name : String}
    (h : ∀ k ∈ field_name_variants name, result k = none) :
    result_row_value result name = "N/A" := by
  simp [result_row_value, get_field_value_none h]

theorem process_runs_len_filter {α : Type} (l : List (Option α)) :
    (process_runs l).length + (l.filter (fun o => o.isNone)).length = l.length := by
  induction l with
  | nil => rfl
  | cons o rest ih =>
    cases o <;> simp [process_runs, List.filterMap_cons] at ih ⊢ <;> omega

theorem run_batch_cons_ok {α : Type} (v : α) (l : List (Except ExtractErr α)) :
    run_batch (.ok v :: l) = v :: run_batch l := by
  simp [run_batch, process_runs, extract_run_result, List.filterMap_cons]

theorem run_batch_cons_error {α : Type} (e : ExtractErr) (l : List (Except ExtractErr α)) :
    run_batch (.error e :: l) = run_batch l := by
  simp [run_batch, process_runs, extract_run_result, List.filterMap_cons]

theorem run_batch_erase_error {α : Type} :
    ∀ (calls : List (Except ExtractErr α)) (i : Nat) (h : i < calls.length)
      (e : ExtractErr), calls.get ⟨i, h⟩ = .error e →
      run_batch calls = run_batch (calls.eraseIdx i)
  | c :: rest, 0, _, e, hget => by
    simp at hget
    subst hget
    simpa [List.eraseIdx] using run_batch_cons_error e rest
  | c :: rest, i + 1, h, e, hget => by
    have hrest : rest.get ⟨i, by simpa using Nat.lt_of_succ_lt_succ h⟩ = .error e := by
      simpa using hget
    have ih := run_batch_erase_error rest i (by simpa using Nat.lt_of_succ_lt_succ h) e hrest
    cases c with
    | ok v => simp [List.eraseIdx, run_batch_cons_ok, ih]
    | error e2 => simp [List.eraseIdx, run_batch_cons_error, ih]

theorem batch_step_inv {N : Nat} {s t : BatchState} (hstep : BatchStep s t)
    (h1 : s.inFlight.length ≤ max_concurrent_runs)
    (h2 : (s.pending ++ s.inFlight ++ s.finished).Perm (List.range N)) :
    t.inFlight.length ≤ max_concurrent_runs ∧
    (t.pending ++ t.inFlight ++ t.finished).Perm (List.range N) := by
  cases hstep with
  | acquire i hp hc =>
    constructor
    · simpa using hc
    · have hA : ((s.pending.erase i ++ i :: s.inFlight) ++ s.finished).Perm
          (i :: (s.pending.erase i ++ s.inFlight ++ s.finished)) := by
        have hm0 : (s.pending.erase i ++ i :: s.inFlight).Perm
            (i :: (s.pending.erase i ++ s.inFlight)) := List.perm_middle
        have hm := hm0.append_right s.finished
        simpa using hm
      have hpe : s.pending.Perm (i :: s.pending.erase i) := List.perm_cons_erase hp
      have hB : ((s.pending ++ s.inFlight) ++ s.finished).Perm
          (i :: (s.pending.erase i ++ s.inFlight ++ s.finished)) := by
        have := (hpe.append_right s.inFlight).append_right s.finished
        simpa using this
      exact hA.trans (hB.symm.trans h2)
  | finish i hf =>
    constructor
    · exact le_trans ((List.erase_sublist i s.inFlight).length_le) h1
    · have hA : ((s.pending ++ s.inFlight.erase i) ++ i :: s.finished).Perm
          (s.pending ++ i :: (s.inFlight.erase i ++ s.finished)) := by
        have hm0 : (s.inFlight.erase i ++ i :: s.finished).Perm
            (i :: (s.inFlight.erase i ++ s.finished)) := List.perm_middle
        have hm := hm0.append_left s.pending
        simpa using hm
      have hpe : s.inFlight.Perm (i :: s.inFlight.erase i) := List.perm_cons_erase hf
      have hB : ((s.pending ++ s.inFlight) ++ s.finished).Perm
          (s.pending ++ i :: (s.inFlight.erase i ++ s.finished)) := by
        have := (hpe.append_right s.finished).append_left s.pending
        simpa using this
      exact hA.trans (hB.symm.trans h2)

theorem batch_inv {N : Nat} {s : BatchState} (h : BatchReachable N s) :
    s.inFlight.length ≤ max_concurrent_runs ∧
    (s.pending ++ s.inFlight ++ s.finished).Perm (List.range N) := by
  induction h with
  | refl => simp [batch_init, max_concurrent_runs]
  | tail hsteps hstep ih => exact batch_step_inv hstep ih.1 ih.2

theorem batch_terminal {N : Nat} {s : BatchState} (hr : BatchReachable N s)
    (hterm : ∀ t, ¬ BatchStep s t) :
    s.pending = [] ∧ s.inFlight = [] ∧ s.finished.Perm (List.range N) := by
  have hif : s.inFlight = [] := by
    cases hIF : s.inFlight with
    | nil => rfl
    | cons x xs =>
      exact absurd (BatchStep.finish s x (by simp [hIF])) (hterm _)
  have hp : s.pending = [] := by
    cases hP : s.pending with
    | nil => rfl
    | cons y ys =>
      refine absurd (BatchStep.acquire s y (by simp [hP]) ?_) (hterm _)
      simp [hif, max_concurrent_runs]
  refine ⟨hp, hif, ?_⟩
  have := (batch_inv hr).2
  simpa [hp, hif] using this

/-! ## Claim C2 -/

/-- Claim C2: `process_runs` issues one task per requested run with at most 5
simultaneously inside the semaphore, waits for all to complete or fail, and
returns exactly the non-failed results in submission order; with 5 runs all
succeeding it returns the 5 results in submission order, and with 2 of 5
failing it returns exactly 3.  Failed runs are dropped, not retried. -/
theorem c2_process_runs_contract :
    (∀ (N : Nat) (s : BatchState), BatchReachable N s →
      s.inFlight.length ≤ max_concurrent_runs) ∧
    (∀ (N : Nat) (s : BatchState), BatchReachable N s →
      (s.pending ++ s.inFlight ++ s.finished).Perm (List.range N)) ∧
    (∀ (N : Nat) (s : BatchState), BatchReachable N s → (∀ t, ¬ BatchStep s t) →
      s.pending = [] ∧ s.inFlight = [] ∧ s.finished.Perm (List.range N)) ∧
    (∀ outcomes : List (Option Nat), (∀ o ∈ outcomes, o.isSome = true) →
      (process_runs outcomes).length = outcomes.length) ∧
    (∀ a b c d e : Nat,
      process_runs [some a, some b, some c, some d, some e] = [a, b, c, d, e]) ∧
    (∀ outcomes : List (Option Nat), outcomes.length = 5 →
      (outcomes.filter (fun o => o.isNone)).length = 2 →
      (process_runs outcomes).length = 3) ∧
    (∀ (outcomes : List (Option Nat)) (v : Nat),
      process_runs (outcomes ++ [some v]) = process_runs outcomes ++ [v] ∧
      process_runs (outcomes ++ [none]) = process_runs outcomes) := by
  refine ⟨fun N s h => (batch_inv h).1, fun N s h => (batch_inv h).2,
    fun N s hr ht => batch_terminal hr ht, ?_, ?_, ?_, ?_⟩
  · intro outcomes hall
    have hf : outcomes.filter (fun o => o.isNone) = [] := by
      rw [List.filter_eq_nil_iff]
      intro o ho
      have h := hall o ho
      cases o with
      | none => simp at h
      | some v => simp
    have := process_runs_len_filter outcomes
    rw [hf] at this
    simpa using this
  · intro a b c d e
    simp [process_runs]
  · intro outcomes h5 h2
    have := process_runs_len_filter outcomes
    omega
  · intro outcomes v
    constructor <;> simp [process_runs]

/-- Witness for C2: the initial state of a 7-run batch respects the
concurrency cap, a fully successful 5-run batch returns its 5 results in
submission order, and a 5-run batch with runs 2 and 4 failed returns the
3 surviving results. -/
theorem c2_witness :
    (batch_init 7).inFlight.length ≤ max_concurrent_runs ∧
    process_runs [some 10, some 20, some 30, some 40, some 50] = [10, 20, 30, 40, 50] ∧
    (process_runs [some 1, none, some 3, none, some 5]).length = 3 :=
  ⟨c2_process_runs_contract.1 7 (batch_init 7) Relation.ReflTransGen.refl,
   c2_process_runs_contract.2.2.2.2.1 10 20 30 40 50,
   c2_process_runs_contract.2.2.2.2.2.1 [some 1, none, some 3, none, some 5]
     (by decide) (by decide)⟩

/-! ## Claim C4 -/

/-- Claim C4: for every declared output field name, value lookup tries, in
this exact order, the exact name, the underscored name, the lowercased name,
and the lowercased underscored name, returning the first present value and
defaulting to `'N/A'` when none match; `"VAT Amount"` matches a result keyed
by any of `"VAT Amount"`, `"VAT_Amount"`, `"vat amount"`, `"vat_amount"`. -/
theorem c4_field_lookup_order :
    (∀ (result : ResultRecord) (name : String) (v : PyVal),
      result name = some v → get_field_value result name = some v) ∧
    (∀ (result : ResultRecord) (name : String) (v : PyVal),
      result name = none → result (py_underscore name) = some v →
      get_field_value result name = some v) ∧
    (∀ (result : ResultRecord) (name : String) (v : PyVal),
      result name = none → result (py_underscore name) = none →
      result (py_lower name) = some v → get_field_value result name = some v) ∧
    (∀ (result : ResultRecord) (name : String) (v : PyVal),
      result name = none → result (py_underscore name) = none →
      result (py_lower name) = none →
      result (py_underscore (py_lower name)) = some v →
      get_field_value result name = some v) ∧
    (∀ (result : ResultRecord) (name : String),
      (∀ k ∈ field_name_variants name, result k = none) →
      get_field_value result name = none ∧ result_row_value result name = "N/A") ∧
    (get_field_value (fun k => if k = "VAT Amount" then some (PyVal.num 42) else none)
      "VAT Amount" = some (PyVal.num 42)) ∧
    (get_field_value (fun k => if k = "VAT_Amount" then some (PyVal.num 42) else none)
      "VAT Amount" = some (PyVal.num 42)) ∧
    (get_field_value (fun k => if k = "vat amount" then some (PyVal.num 42) else none)
      "VAT Amount" = some (PyVal.num 42)) ∧
    (get_field_value (fun k => if k = "vat_amount" then some (PyVal.num 42) else none)
      "VAT Amount" = some (PyVal.num 42)) ∧
    (result_row_value (fun _ => none) "VAT Amount" = "N/A") := by
  refine ⟨fun r n v h => get_field_value_exact h,
    fun r n v h0 h => get_field_value_underscored h0 h,
    fun r n v h0 h1 h => get_field_value_lowered h0 h1 h,
    fun r n v h0 h1 h2 h => get_field_value_lowered_underscored h0 h1 h2 h,
    fun r n h => ⟨get_field_value_none h, result_row_value_na h⟩,
    by decide, by decide, by decide, by decide, by decide⟩

/-- Witness for C4: a result record keyed only by `"VAT_Amount"` is found
through the second lookup step for the declared field `"VAT Amount"`. -/
theorem c4_witness :
    get_field_value (fun k => if k = "VAT_Amount" then some (PyVal.num 7) else none)
      "VAT Amount" = some (PyVal.num 7) :=
  c4_field_lookup_order.2.1 (fun k => if k = "VAT_Amount" then some (PyVal.num 7) else none)
    "VAT Amount" (PyVal.num 7) (by decide) (by decide)

/-! ## Claim C6 -/

/-- Claim C6: for every method name outside the three known strategies the
factory fails with a configuration error at selection time and no network
call is attempted; each of the three known names yields the corresponding
extractor. -/
theorem c6_strategy_selection :
    (create_extractor "json_mode" = .ok .jsonMode) ∧
    (create_extractor "instructor" = .ok .instructorMode) ∧
    (create_extractor "structured_output" = .ok .structuredOutput) ∧
    (∀ method : String, method ≠ "json_mode" → method ≠ "instructor" →
      method ≠ "structured_output" →
      create_extractor method = .error (.unknownMethod method) ∧
      ∀ callModel : Extractor → Option Nat,
        extract_currency_async method callModel = (none, [CallEvent.factoryCall]) ∧
        CallEvent.networkCall ∉ (extract_currency_async method callModel).2) := by
  refine ⟨rfl, rfl, rfl, fun m h1 h2 h3 => ?_⟩
  have hce : create_extractor m = .error (.unknownMethod m) := by
    simp [create_extractor, h1, h2, h3]
  refine ⟨hce, fun callModel => ?_⟩
  constructor
  · simp [extract_currency_async, hce]
  · simp [extract_currency_async, hce]

/-- Witness for C6: the unknown strategy name `"bogus"` fails at the factory
and produces no network call. -/
theorem c6_witness :
    create_extractor "bogus" = .error (.unknownMethod "bogus") ∧
    extract_currency_async "bogus" (fun _ => (none : Option Nat)) =
      (none, [CallEvent.factoryCall]) :=
  ⟨(c6_strategy_selection.2.2.2 "bogus" (by decide) (by decide) (by decide)).1,
   ((c6_strategy_selection.2.2.2 "bogus" (by decide) (by decide) (by decide)).2
     (fun _ => none)).1⟩

/-! ## Claim C7 -/

/-- Claim C7: a failure of the strategy call is caught locally inside that
run and becomes a single absent result for that run only: removing the
failed run from the batch does not change the aggregated results, and
successful sibling runs are kept in order. -/
theorem c7_failure_isolated :
    (∀ e : ExtractErr, extract_run_result (α := Nat) (.error e) = none) ∧
    (∀ (calls : List (Except ExtractErr Nat)) (i : Nat) (h : i < calls.length)
      (e : ExtractErr), calls.get ⟨i, h⟩ = .error e →
      run_batch calls = run_batch (calls.eraseIdx i)) ∧
    (∀ (calls : List (Except ExtractErr Nat)) (v : Nat),
      run_batch (calls ++ [.ok v]) = run_batch calls ++ [v]) ∧
    (∀ (calls : List (Except ExtractErr Nat)) (e : ExtractErr),
      run_batch (calls ++ [.error e]) = run_batch calls) := by
  refine ⟨fun e => rfl, run_batch_erase_error, ?_, ?_⟩
  · intro calls v
    simp [run_batch, process_runs, List.filterMap_append, extract_run_result]
  · intro calls e
    simp [run_batch, process_runs, List.filterMap_append, extract_run_result]

/-- Witness for C7: in a 3-run batch whose second run fails with a network
error, the aggregate equals the aggregate of the batch without that run. -/
theorem c7_witness :
    run_batch [Except.ok 1, Except.error (ExtractErr.network "timeout"), Except.ok 2] =
      run_batch ([Except.ok 1, Except.error (ExtractErr.network "timeout"),
        Except.ok 2].eraseIdx 1) :=
  c7_failure_isolated.2.1
    [Except.ok 1, Except.error (ExtractErr.network "timeout"), Except.ok 2]
    1 (by decide) (ExtractErr.network "timeout") rfl

/-! ## Mode machinery -/

theorem py_distinct_mem {α : Type} [DecidableEq α] (l : List α) (x : α) :
    x ∈ py_distinct l ↔ x ∈ l := by
  induction l using py_distinct.induct with
  | case1 => simp [py_distinct]
  | case2 a rest ih =>
    rw [py_distinct]
    by_cases hxa : x = a
    · simp [hxa]
    · simp only [List.mem_cons, hxa, false_or, ih, List.mem_filter]
      constructor
      · exact fun h => h.1
      · exact fun h => ⟨h, by simpa using hxa⟩

theorem py_distinct_nodup {α : Type} [DecidableEq α] (l : List α) :
    (py_distinct l).Nodup := by
  induction l using py_distinct.induct with
  | case1 => simp [py_distinct]
  | case2 a rest ih =>
    rw [py_distinct]
    refine List.nodup_cons.mpr ⟨?_, ih⟩
    intro hmem
    have := (py_distinct_mem _ a).mp hmem
    simp [List.mem_filter] at this

theorem filter_indexOf_lt {α : Type} [DecidableEq α] (p : α → Bool) :
    ∀ (l : List α) (x y : α), x ∈ l.filter p → y ∈ l.filter p →
      (l.filter p).indexOf x < (l.filter p).indexOf y → l.indexOf x < l.indexOf y := by
  intro l
  induction l with
  | nil => intro x y hx; simp at hx
  | cons h t ih =>
    intro x y hx hy hlt
    by_cases php : p h
    · rw [List.filter_cons_of_pos php] at hx hy hlt
      by_cases hxh : x = h
      · subst hxh
        have hyx : y ≠ x := by
          intro hyx
          subst hyx
          exact lt_irrefl _ hlt
        rw [List.indexOf_cons_self]
        rw [List.indexOf_cons_ne _ (fun hh => hyx hh.symm)]
        exact Nat.succ_pos _
      · have hyh : y ≠ h := by
          intro hyh
          subst hyh
          rw [List.indexOf_cons_self] at hlt
          exact Nat.not_lt_zero _ hlt
        have hx2 : x ∈ t.filter p := by
          rcases List.mem_cons.mp hx with h1 | h1
          · exact absurd h1 hxh
          · exact h1
        have hy2 : y ∈ t.filter p := by
          rcases List.mem_cons.mp hy with h1 | h1
          · exact absurd h1 hyh
          · exact h1
        rw [List.indexOf_cons_ne _ (fun hh => hxh hh.symm),
          List.indexOf_cons_ne _ (fun hh => hyh hh.symm)] at hlt
        rw [List.indexOf_cons_ne _ (fun hh => hxh hh.symm),
          List.indexOf_cons_ne _ (fun hh => hyh hh.symm)]
        exact Nat.succ_lt_succ (ih x y hx2 hy2 (Nat.lt_of_succ_lt_succ hlt))
    · rw [List.filter_cons_of_neg php] at hx hy hlt
      have hxh : x ≠ h := by
        intro hxh
        subst hxh
        have := (List.mem_filter.mp hx).2
        exact php this
      have hyh : y ≠ h := by
        intro hyh
        subst hyh
        have := (List.mem_filter.mp hy).2
        exact php this
      rw [List.indexOf_cons_ne _ (fun hh => hxh hh.symm),
        List.indexOf_cons_ne _ (fun hh => hyh hh.symm)]
      exact Nat.succ_lt_succ (ih x y hx hy hlt)

theorem py_distinct_pairwise {α : Type} [DecidableEq α] (l : List α) :
    (py_distinct l).Pairwise (fun x y => l.indexOf x < l.indexOf y) := by
  induction l using py_distinct.induct with
  | case1 => simp [py_distinct]
  | case2 a rest ih =>
    rw [py_distinct]
    refine List.pairwise_cons.mpr ⟨?_, ?_⟩
    · intro y hy
      have hyF := (py_distinct_mem _ y).mp hy
      have hya : y ≠ a := by
        have := (List.mem_filter.mp hyF).2
        simpa using this
      rw [List.indexOf_cons_self, List.indexOf_cons_ne _ (fun hh => hya hh.symm)]
      exact Nat.succ_pos _
    · refine ih.imp_of_mem ?_
      intro x y hx hy hlt
      have hxF := (py_distinct_mem _ x).mp hx
      have hyF := (py_distinct_mem _ y).mp hy
      have hxa : x ≠ a := by
        have := (List.mem_filter.mp hxF).2
        simpa using this
      have hya : y ≠ a := by
        have := (List.mem_filter.mp hyF).2
        simpa using this
      have hrest := filter_indexOf_lt _ rest x y hxF hyF hlt
      rw [List.indexOf_cons_ne _ (fun hh => hxa hh.symm),
        List.indexOf_cons_ne _ (fun hh => hya hh.symm)]
      exact Nat.succ_lt_succ hrest

theorem mode_best_some {α : Type} [DecidableEq α] (l : List α) :
    ∀ (cs : List α) (b : α),
      mode_best l (some b) cs =
        some (cs.foldl (fun x c => if l.count x < l.count c then c else x) b) := by
  intro cs
  induction cs with
  | nil => intro b; rfl
  | cons c cs ih =>
    intro b
    rw [mode_best, List.foldl_cons]
    exact ih _

theorem fold_mode_decomp {α : Type} [DecidableEq α] (l : List α) :
    ∀ (cs : List α) (b : α),
      ∃ pre post,
        b :: cs = pre ++ (cs.foldl (fun x c => if l.count x < l.count c then c else x) b) :: post ∧
        (∀ y ∈ pre, l.count y <
          l.count (cs.foldl (fun x c => if l.count x < l.count c then c else x) b)) ∧
        (∀ y ∈ post, l.count y ≤
          l.count (cs.foldl (fun x c => if l.count x < l.count c then c else x) b)) := by
  intro cs
  induction cs with
  | nil =>
    intro b
    exact ⟨[], [], rfl, by simp, by simp⟩
  | cons c cs ih =>
    intro b
    rw [List.foldl_cons]
    by_cases hbc : l.count b < l.count c
    · rw [if_pos hbc]
      obtain ⟨pre, post, heq, hpre, hpost⟩ := ih c
      have hcr : l.count c ≤
          l.count (cs.foldl (fun x c => if l.count x < l.count c then c else x) c) := by
        cases pre with
        | nil =>
          rw [List.nil_append] at heq
          injection heq with h1 _
          exact le_of_eq (by rw [← h1])
        | cons p0 pre2 =>
          rw [List.cons_append] at heq
          injection heq with h1 _
          have hcc : l.count c = l.count p0 := by rw [h1]
          rw [hcc]
          exact le_of_lt (hpre p0 (by simp))
      refine ⟨b :: pre, post, ?_, ?_, hpost⟩
      · rw [List.cons_append, ← heq]
      · intro y hy
        rcases List.mem_cons.mp hy with h1 | h1
        · subst h1; exact lt_of_lt_of_le hbc hcr
        · exact hpre y h1
    · rw [if_neg hbc]
      obtain ⟨pre, post, heq, hpre, hpost⟩ := ih b
      cases pre with
      | nil =>
        rw [List.nil_append] at heq
        injection heq with h1 h2
        refine ⟨[], c :: cs, ?_, by simp, ?_⟩
        · rw [List.nil_append, ← h1]
        · intro y hy
          rcases List.mem_cons.mp hy with h3 | h3
          · subst h3
            rw [← h1]
            exact le_of_not_lt hbc
          · rw [h2] at h3
            exact hpost y h3
      | cons p0 pre2 =>
        rw [List.cons_append] at heq
        injection heq with h1 h2
        refine ⟨b :: c :: pre2, post, ?_, ?_, hpost⟩
        · rw [List.cons_append, List.cons_append]
          exact congrArg (fun t => b :: c :: t) h2
        · intro y hy
          have hbb : l.count b = l.count p0 := by rw [h1]
          have hbr : l.count b <
              l.count (cs.foldl (fun x c => if l.count x < l.count c then c else x) b) := by
            rw [hbb]
            exact hpre p0 (by simp)
          rcases List.mem_cons.mp hy with h3 | h3
          · subst h3; exact hbr
          · rcases List.mem_cons.mp h3 with h4 | h4
            · subst h4; exact lt_of_le_of_lt (le_of_not_lt hbc) hbr
            · exact hpre y (by simp [h4])

theorem py_mode_spec {α : Type} [DecidableEq α] (l : List α) (hne : l ≠ []) :
    ∃ m, py_mode l = some m ∧ m ∈ l ∧
      (∀ v ∈ l, l.count v ≤ l.count m) ∧
      (∀ v ∈ l, l.count v = l.count m → l.indexOf m ≤ l.indexOf v) := by
  obtain ⟨a, rest, rfl⟩ := List.exists_cons_of_ne_nil hne
  have hd : py_distinct (a :: rest) = a :: py_distinct (rest.filter (fun b => b ≠ a)) := by
    rw [py_distinct]
  set ds := py_distinct (rest.filter (fun b => b ≠ a)) with hds
  set r := ds.foldl
    (fun x c => if (a :: rest).count x < (a :: rest).count c then c else x) a with hr
  have hmode : py_mode (a :: rest) = some r := by
    rw [py_mode, hd, mode_best, mode_best_some]
  obtain ⟨pre, post, heq, hpre, hpost⟩ := fold_mode_decomp (a :: rest) ds a
  rw [← hr] at heq hpre hpost
  have hdecomp : py_distinct (a :: rest) = pre ++ r :: post := by rw [hd, heq]
  have hrmem : r ∈ py_distinct (a :: rest) := by
    rw [hdecomp]; exact List.mem_append.mpr (Or.inr (by simp))
  refine ⟨r, hmode, (py_distinct_mem _ r).mp hrmem, ?_, ?_⟩
  · intro v hv
    have hvd : v ∈ py_distinct (a :: rest) := (py_distinct_mem _ v).mpr hv
    rw [hdecomp] at hvd
    rcases List.mem_append.mp hvd with h1 | h1
    · exact le_of_lt (hpre v h1)
    · rcases List.mem_cons.mp h1 with h2 | h2
      · exact h2 ▸ le_refl _
      · exact hpost v h2
  · intro v hv hcount
    have hvd : v ∈ py_distinct (a :: rest) := (py_distinct_mem _ v).mpr hv
    rw [hdecomp] at hvd
    rcases List.mem_append.mp hvd with h1 | h1
    · exact absurd hcount (ne_of_lt (hpre v h1))
    · rcases List.mem_cons.mp h1 with h2 | h2
      · exact h2 ▸ le_refl _
      · have hpw := py_distinct_pairwise (a :: rest)
        rw [hdecomp] at hpw
        have h3 := (List.pairwise_append.mp hpw).2.1
        have h4 := (List.pairwise_cons.mp h3).1
        exact le_of_lt (h4 v h2)

/-! ## Claim C3 -/

/-- Claim C3: for every declared output field and non-empty batch, the
summary computes the arithmetic mean over exactly the numeric subset of the
looked-up values whenever that subset is non-empty (the mean of
`[100.0, 200.0, 300.0]` is displayed as `200.00`), and, regardless of type,
computes the most frequently occurring raw value, ties broken by taking the
first-encountered mode. -/
theorem c3_summary_statistics :
    (∀ values : List (Option PyVal), numeric_values values ≠ [] →
      summary_average values = some (py_mean (numeric_values values))) ∧
    (∀ l : List Rat, l ≠ [] → (l.length : Rat) * py_mean l = l.sum) ∧
    (py_mean [100, 200, 300] = 200 ∧
      format_two_dec (py_mean [100, 200, 300]) = "200.00") ∧
    (∀ values : List (Option PyVal), values ≠ [] →
      ∃ m, most_common_value values = some m ∧ m ∈ values ∧
        (∀ v ∈ values, values.count v ≤ values.count m) ∧
        (∀ v ∈ values, values.count v = values.count m →
          values.indexOf m ≤ values.indexOf v)) := by
  refine ⟨?_, ?_, ⟨?_, ?_⟩, ?_⟩
  · intro values h
    simp [summary_average, h]
  · intro l h
    have hlen : (l.length : Rat) ≠ 0 := by
      simpa using fun hz => h (List.length_eq_zero.mp hz)
    rw [py_mean, mul_comm]
    exact div_mul_cancel₀ _ hlen
  · norm_num [py_mean]
  · have h1 : py_mean [100, 200, 300] = 200 := by norm_num [py_mean]
    have h2 : round_half_even ((200 : Rat) * 100) = 20000 := by
      norm_num [round_half_even]
    rw [format_two_dec, h1, h2]
    decide
  · intro values h
    simpa [most_common_value] using py_mode_spec values h

/-- Witness for C3: the summary average is present for a batch with one
numeric value, and the most-common computation applies to a concrete
non-empty value list. -/
theorem c3_witness :
    summary_average [some (PyVal.num 100)] =
      some (py_mean (numeric_values [some (PyVal.num 100)])) ∧
    (∃ m, most_common_value [some (PyVal.num 5), some (PyVal.num 5), none] = some m ∧
      m ∈ [some (PyVal.num 5), some (PyVal.num 5), none] ∧
      (∀ v ∈ [some (PyVal.num 5), some (PyVal.num 5), none],
        [some (PyVal.num 5), some (PyVal.num 5), none].count v ≤
          [some (PyVal.num 5), some (PyVal.num 5), none].count m) ∧
      (∀ v ∈ [some (PyVal.num 5), some (PyVal.num 5), none],
        [some (PyVal.num 5), some (PyVal.num 5), none].count v =
          [some (PyVal.num 5), some (PyVal.num 5), none].count m →
        [some (PyVal.num 5), some (PyVal.num 5), none].indexOf m ≤
          [some (PyVal.num 5), some (PyVal.num 5), none].indexOf v)) :=
  ⟨c3_summary_statistics.1 [some (PyVal.num 100)] (by decide),
   c3_summary_statistics.2.2.2 [some (PyVal.num 5), some (PyVal.num 5), none]
     (by decide)⟩

/-! ## Claim C10 -/

/-- Claim C10: a result in which an output field matches none of the four
name variants contributes a `None` entry to that field's summary value list
(not the string `'N/A'`, which only the table path uses): the `None` entries
are excluded from the mean but participate in the most-common computation,
so `None` itself can be reported as the most common value. -/
theorem c10_summary_none_entries :
    (∀ (results : List ResultRecord) (name : String) (i : Nat) (r : ResultRecord),
      results.get? i = some r → (∀ k ∈ field_name_variants name, r k = none) →
      (field_values results name).get? i = some none) ∧
    (∀ vs : List (Option PyVal), numeric_values (none :: vs) = numeric_values vs) ∧
    (most_common_value [none, some (PyVal.num 5), none] = some none) ∧
    (field_values [fun _ => none] "Currency" = [none] ∧
      result_row_value (fun _ => none) "Currency" = "N/A") := by
  refine ⟨?_, ?_, ?_, by decide, by decide⟩
  · intro results name i r hget hall
    rw [List.get?_eq_getElem?] at hget
    rw [field_values, List.get?_eq_getElem?, List.getElem?_map, hget]
    simp [get_field_value_none hall]
  · intro vs
    simp [numeric_values, to_number, List.filterMap_cons]
  · simp [most_common_value, py_mode, py_distinct, mode_best, List.count_cons,
      List.count_nil]

/-- Witness for C10: in a one-run batch whose result record has no matching
key, the summary value list carries `none` at that run's position. -/
theorem c10_witness :
    (field_values [fun _ => none] "Amount").get? 0 = some none :=
  c10_summary_none_entries.1 [fun _ => none] "Amount" 0 (fun _ => none) rfl
    (by decide)

/-! ## Dictionary lemmas -/

theorem dict_insert_fresh {α : Type} (k : String) (v : α) :
    ∀ acc : List (String × α), k ∉ acc.map Prod.fst →
      dict_insert k v acc = acc ++ [(k, v)]
  | [], _ => rfl
  | (k2, v2) :: rest, h => by
    have hk : k2 ≠ k := by
      intro he
      exact h (by simp [he])
    rw [dict_insert, if_neg hk,
      dict_insert_fresh k v rest (fun hm => h (by simp [hm]))]
    simp

theorem dictify_go_fresh {α : Type} :
    ∀ (l acc : List (String × α)),
      (∀ e ∈ l, e.1 ∉ acc.map Prod.fst) → (l.map Prod.fst).Nodup →
      l.foldl (fun a e => dict_insert e.1 e.2 a) acc = acc ++ l
  | [], acc, _, _ => by simp
  | (k, v) :: rest, acc, hfresh, hnd => by
    have hnd2 : (rest.map Prod.fst).Nodup := (List.nodup_cons.mp (by simpa using hnd)).2
    have hknotin : k ∉ rest.map Prod.fst := (List.nodup_cons.mp (by simpa using hnd)).1
    have hfresh2 : ∀ e ∈ rest, e.1 ∉ (acc ++ [(k, v)]).map Prod.fst := by
      intro e he hmem
      rw [List.map_append, List.mem_append] at hmem
      rcases hmem with h1 | h1
      · exact hfresh e (by simp [he]) h1
      · simp only [List.map_cons, List.map_nil, List.mem_singleton] at h1
        exact hknotin (h1 ▸ List.mem_map_of_mem Prod.fst he)
    rw [List.foldl_cons, dict_insert_fresh k v acc (hfresh (k, v) (by simp)),
      dictify_go_fresh rest (acc ++ [(k, v)]) hfresh2 hnd2]
    simp

theorem dictify_of_nodup {α : Type} (l : List (String × α))
    (h : (l.map Prod.fst).Nodup) : dictify l = l := by
  have := dictify_go_fresh l [] (by simp) h
  simpa [dictify] using this

theorem mem_dict_insert {α : Type} (k : String) (v : α) :
    ∀ (acc : List (String × α)) (e : String × α),
      e ∈ dict_insert k v acc → e = (k, v) ∨ e ∈ acc
  | [], e, h => Or.inl (by simpa [dict_insert] using h)
  | (k2, v2) :: rest, e, h => by
    rw [dict_insert] at h
    by_cases hk : k2 = k
    · rw [if_pos hk] at h
      rcases List.mem_cons.mp h with h1 | h1
      · exact Or.inl h1
      · exact Or.inr (List.mem_cons.mpr (Or.inr h1))
    · rw [if_neg hk] at h
      rcases List.mem_cons.mp h with h1 | h1
      · exact Or.inr (by simp [h1])
      · rcases mem_dict_insert k v rest e h1 with h2 | h2
        · exact Or.inl h2
        · exact Or.inr (by simp [h2])

theorem mem_dictify_go {α : Type} :
    ∀ (l acc : List (String × α)) (e : String × α),
      e ∈ l.foldl (fun a x => dict_insert x.1 x.2 a) acc → e ∈ acc ∨ e ∈ l
  | [], _, e, h => Or.inl (by simpa using h)
  | x :: rest, acc, e, h => by
    rw [List.foldl_cons] at h
    rcases mem_dictify_go rest _ e h with h1 | h1
    · rcases mem_dict_insert x.1 x.2 acc e h1 with h2 | h2
      · right
        simp [h2]
      · exact Or.inl h2
    · right
      simp [h1]

theorem mem_dictify {α : Type} (l : List (String × α)) (e : String × α)
    (h : e ∈ dictify l) : e ∈ l := by
  rcases mem_dictify_go l [] e (by simpa [dictify] using h) with h1 | h1
  · simp at h1
  · exact h1

theorem no_opt_fields_iff :
    ∀ fs : List (String × FieldType × String × String),
      no_opt_fields fs = true ↔ ∀ e ∈ fs, no_opt e.2.1 = true
  | [] => by simp [no_opt_fields]
  | (n, t, al, d) :: rest => by
    rw [no_opt_fields, Bool.and_eq_true, no_opt_fields_iff rest]
    constructor
    · rintro ⟨h1, h2⟩ e he
      rcases List.mem_cons.mp he with h3 | h3
      · rw [h3]
        exact h1
      · exact h2 e h3
    · intro h
      exact ⟨h (n, t, al, d) (by simp), fun e he => h e (by simp [he])⟩

theorem no_opt_fields_dictify {fs : List (String × FieldType × String × String)}
    (h : no_opt_fields fs = true) : no_opt_fields (dictify fs) = true := by
  rw [no_opt_fields_iff] at h ⊢
  exact fun e he => h e (mem_dictify _ _ he)

/-! ## Scalar compilation lemmas -/

theorem gft_scalar (s : SchemaNode) (h : is_scalar_schema s) :
    get_field_type s = .ok (spec_scalar_field_type s) := by
  obtain ⟨ty, fmt, items, props, req, title, descr⟩ := s
  obtain ⟨ho, ha⟩ : ty ≠ some "object" ∧ ty ≠ some "array" := by
    simpa [is_scalar_schema, stype] using h
  rcases ty with _ | t
  · simp [get_field_type, spec_scalar_field_type, stype]
  · by_cases h1 : t = "string"
    · subst h1
      by_cases hf : fmt = some "date" <;>
        simp [get_field_type, spec_scalar_field_type, stype, sformat, hf]
    · by_cases h2 : t = "number"
      · subst h2
        simp [get_field_type, spec_scalar_field_type, stype]
      · by_cases h3 : t = "boolean"
        · subst h3
          simp [get_field_type, spec_scalar_field_type, stype]
        · have ho2 : t ≠ "object" := fun he => ho (by rw [he])
          have ha2 : t ≠ "array" := fun he => ha (by rw [he])
          rw [get_field_type.eq_def]
          simp only [spec_scalar_field_type, stype, sformat]
          split <;> simp_all

theorem btf_scalar (required_fields : List String) :
    ∀ props : List (String × SchemaNode), (∀ p ∈ props, is_scalar_schema p.2) →
      build_top_fields required_fields props =
        .ok (props.map (fun p => (normalize_field_name p.1,
          (if required_fields.contains p.1 then spec_scalar_field_type p.2
           else FieldType.option (spec_scalar_field_type p.2)), p.1,
          (sdescr p.2).getD "")))
  | [], _ => rfl
  | (n, s) :: rest, h => by
    rw [build_top_fields, gft_scalar s (h (n, s) (by simp)),
      btf_scalar required_fields rest (fun p hp => h p (by simp [hp]))]
    rfl

theorem btf_names (required_fields : List String) :
    ∀ (props : List (String × SchemaNode))
      (fs : List (String × FieldType × String × String)),
      build_top_fields required_fields props = .ok fs →
      fs.map (fun f => (f.1, f.2.2.1)) =
        props.map (fun p => (normalize_field_name p.1, p.1))
  | [], fs, h => by
    rw [build_top_fields] at h
    injection h with h1
    rw [← h1]
    rfl
  | (n, s) :: rest, fs, h => by
    rw [build_top_fields] at h
    cases hgt : get_field_type s with
    | error e => rw [hgt] at h; exact absurd h (by simp)
    | ok t =>
      rw [hgt] at h
      cases hbt : build_top_fields required_fields rest with
      | error e => rw [hbt] at h; exact absurd h (by simp)
      | ok fs2 =>
        rw [hbt] at h
        injection h with h1
        rw [← h1, List.map_cons, List.map_cons, btf_names required_fields rest fs2 hbt]

/-! ## Claim C1 -/

/-- Claim C1 (amended): for every JSON Schema object containing only scalar
properties, provided no two property names normalize to the same internal
identifier, the compiled model has exactly one field per schema property,
with the type mapping `string`+`date`→date, `string`→text,
`number`→floating point, `boolean`→boolean, unrecognized→untyped, and a
field is nullable (`Optional`) exactly when its original name is absent
from the `required` list. -/
theorem c1_scalar_schema_model (schema : SchemaNode)
    (hscalar : ∀ p ∈ (sprops schema).getD [], is_scalar_schema p.2)
    (hnodup : (((sprops schema).getD []).map
      (fun p => normalize_field_name p.1)).Nodup) :
    create_model_from_schema schema =
      .ok ⟨(stitle schema).getD "DynamicModel",
        ((sprops schema).getD []).map (fun p => (normalize_field_name p.1,
          (if (sreq schema).contains p.1 then spec_scalar_field_type p.2
           else FieldType.option (spec_scalar_field_type p.2)), p.1,
          (sdescr p.2).getD ""))⟩ ∧
    (∀ M : PyModel, create_model_from_schema schema = .ok M →
      M.fields.length = ((sprops schema).getD []).length) := by
  have hbtf := btf_scalar (sreq schema) ((sprops schema).getD []) hscalar
  have hkeys : ((((sprops schema).getD []).map (fun p => (normalize_field_name p.1,
      (if (sreq schema).contains p.1 then spec_scalar_field_type p.2
       else FieldType.option (spec_scalar_field_type p.2)), p.1,
      (sdescr p.2).getD ""))).map Prod.fst).Nodup := by
    rw [List.map_map]
    exact hnodup
  have hstep : create_model_from_schema schema =
      .ok ⟨(stitle schema).getD "DynamicModel",
        dictify (((sprops schema).getD []).map (fun p => (normalize_field_name p.1,
          (if (sreq schema).contains p.1 then spec_scalar_field_type p.2
           else FieldType.option (spec_scalar_field_type p.2)), p.1,
          (sdescr p.2).getD "")))⟩ := by
    rw [create_model_from_schema, hbtf]
  have heval : create_model_from_schema schema =
      .ok ⟨(stitle schema).getD "DynamicModel",
        ((sprops schema).getD []).map (fun p => (normalize_field_name p.1,
          (if (sreq schema).contains p.1 then spec_scalar_field_type p.2
           else FieldType.option (spec_scalar_field_type p.2)), p.1,
          (sdescr p.2).getD ""))⟩ := by
    rw [hstep, dictify_of_nodup _ hkeys]
  refine ⟨heval, fun M hM => ?_⟩
  rw [heval] at hM
  injection hM with h1
  rw [← h1]
  simp

/-- Witness for C1: a scalar two-field invoice schema with one required
field compiles to a field list with one entry per property. -/
theorem c1_witness :
    (∀ p ∈ (sprops sample_scalar_schema).getD [], is_scalar_schema p.2) ∧
    create_model_from_schema sample_scalar_schema =
      .ok ⟨(stitle sample_scalar_schema).getD "DynamicModel",
        ((sprops sample_scalar_schema).getD []).map
          (fun p => (normalize_field_name p.1,
            (if (sreq sample_scalar_schema).contains p.1 then
              spec_scalar_field_type p.2
             else FieldType.option (spec_scalar_field_type p.2)), p.1,
            (sdescr p.2).getD ""))⟩ :=
  ⟨by decide,
   (c1_scalar_schema_model sample_scalar_schema (by decide) (by decide)).1⟩

/-- Counterexample for C1 as stated: the scalar properties `"A B"` and
`"a_b"` normalize to the same identifier, so the compiled model has one
field for two schema properties. -/
theorem c1_counterexample :
    (create_model_from_schema collision_schema).map (fun M => M.fields.length) ≠
      .ok (((sprops collision_schema).getD []).length) ∧
    (create_model_from_schema collision_schema).map (fun M => M.fields.length) =
      .ok 1 ∧
    ((sprops collision_schema).getD []).length = 2 := by
  have hstr : get_field_type (SchemaNode.mk (some "string") none none none [] none none) =
      .ok .str := by
    simp [get_field_type]
  have hn1 : normalize_field_name "A B" = "a_b" := by decide
  have hn2 : normalize_field_name "a_b" = "a_b" := by decide
  have heval : create_model_from_schema collision_schema =
      .ok ⟨"DynamicModel", [("a_b", FieldType.option .str, "a_b", "")]⟩ := by
    rw [create_model_from_schema]
    simp [collision_schema, sprops, sreq, stitle, sdescr, string_node,
      build_top_fields, hstr, hn1, hn2, dictify, dict_insert]
  refine ⟨?_, by rw [heval]; rfl, by decide⟩
  rw [heval]
  simp [Except.map, collision_schema, sprops]

/-! ## Claim C8 -/

/-- Claim C8 (amended): provided no two property names normalize to the same
internal identifier, every schema property yields a field whose internal
identifier is the lowercased, underscore-normalized name and whose alias is
the original schema name. -/
theorem c8_field_identifier_alias (schema : SchemaNode) (M : PyModel)
    (hnodup : (((sprops schema).getD []).map
      (fun p => normalize_field_name p.1)).Nodup)
    (hok : create_model_from_schema schema = .ok M) :
    ∀ p ∈ (sprops schema).getD [], ∃ f ∈ M.fields,
      f.1 = normalize_field_name p.1 ∧ f.2.2.1 = p.1 := by
  rw [create_model_from_schema] at hok
  cases hbt : build_top_fields (sreq schema) ((sprops schema).getD []) with
  | error e =>
    rw [hbt] at hok
    exact absurd hok (by simp)
  | ok fs =>
    rw [hbt] at hok
    have hnames := btf_names (sreq schema) _ fs hbt
    have hkeysList : fs.map Prod.fst =
        ((sprops schema).getD []).map (fun p => normalize_field_name p.1) := by
      have := congrArg (fun l => l.map Prod.fst) hnames
      simpa [List.map_map] using this
    have hkeys : (fs.map Prod.fst).Nodup := by
      rw [hkeysList]
      exact hnodup
    have hok2 : Except.ok (PyModel.mk ((stitle schema).getD "DynamicModel")
        (dictify fs)) = Except.ok M := hok
    injection hok2 with h1
    have hMf : M.fields = fs := by
      rw [← h1]
      exact dictify_of_nodup fs hkeys
    intro p hp
    have hmem : (normalize_field_name p.1, p.1) ∈
        ((sprops schema).getD []).map (fun p => (normalize_field_name p.1, p.1)) :=
      List.mem_map_of_mem _ hp
    rw [← hnames] at hmem
    obtain ⟨f, hf, hfe⟩ := List.mem_map.mp hmem
    rw [Prod.ext_iff] at hfe
    exact ⟨f, by rw [hMf]; exact hf, hfe.1, hfe.2⟩

/-- Witness for C8: the property `"VAT Amount"` compiles to a field with
identifier `vat_amount` and alias `"VAT Amount"`. -/
theorem c8_witness :
    ∃ f ∈ (PyModel.mk "DynamicModel"
        [("vat_amount", FieldType.option .float, "VAT Amount", "")]).fields,
      f.1 = normalize_field_name "VAT Amount" ∧ f.2.2.1 = "VAT Amount" := by
  have hnum : get_field_type (SchemaNode.mk (some "number") none none none [] none none) =
      .ok .float := by
    simp [get_field_type]
  have hok : create_model_from_schema vat_schema =
      .ok ⟨"DynamicModel", [("vat_amount", FieldType.option .float, "VAT Amount", "")]⟩ := by
    rw [create_model_from_schema]
    simp [vat_schema, sprops, sreq, stitle, sdescr, number_node,
      build_top_fields, hnum, dictify, dict_insert,
      show normalize_field_name "VAT Amount" = "vat_amount" from by decide]
  exact c8_field_identifier_alias vat_schema _ (by decide) hok
    ("VAT Amount", number_node) (by simp [vat_schema, sprops])

/-- Counterexample for C8 as stated: the properties `"A B"` and `"a_b"`
collide on the identifier `a_b`; the surviving field definition keeps the
later property's alias, so no field retains the alias `"A B"`. -/
theorem c8_counterexample :
    create_model_from_schema alias_collision_schema =
      .ok ⟨"DynamicModel", [("a_b", FieldType.option FieldType.float, "a_b", "")]⟩ ∧
    [("a_b", FieldType.option FieldType.float, "a_b", "")].all
      (fun f => f.2.2.1 != "A B") = true ∧
    ("A B", string_node) ∈ (sprops alias_collision_schema).getD [] := by
  have hstr : get_field_type (SchemaNode.mk (some "string") none none none [] none none) =
      .ok .str := by
    simp [get_field_type]
  have hnum : get_field_type (SchemaNode.mk (some "number") none none none [] none none) =
      .ok .float := by
    simp [get_field_type]
  refine ⟨?_, by decide, by simp [alias_collision_schema, sprops]⟩
  rw [create_model_from_schema]
  simp [alias_collision_schema, sprops, sreq, stitle, sdescr, string_node,
    number_node, build_top_fields, hstr, hnum, dictify, dict_insert,
    show normalize_field_name "A B" = "a_b" from by decide,
    show normalize_field_name "a_b" = "a_b" from by decide]

/-! ## Claim C5 -/

/-- Claim C5 concerns a code bug: compiling a schema whose nested `object`
node lacks a `properties` key does not raise any schema error — the code
reads `field_schema.get('properties', {})` and silently produces an empty
nested model; and an `array` whose item `object` lacks `properties` raises a
raw `KeyError` from `item_schema['properties']`, not a schema-level error
(no `SchemaError` exists anywhere in the code). -/
theorem c5_missing_properties_eval :
    create_model_from_schema missing_props_schema =
      .ok ⟨"DynamicModel",
        [("inner", FieldType.option (FieldType.model "NestedModel" []),
          "inner", "")]⟩ ∧
    get_field_type missing_props_array_node = .error (.keyError "properties") := by
  have hobj : get_field_type (SchemaNode.mk (some "object") none none none [] none none) =
      .ok (FieldType.model "NestedModel" []) := by
    simp [get_field_type, dictify]
  constructor
  · rw [create_model_from_schema]
    simp [missing_props_schema, sprops, sreq, stitle, sdescr,
      propertyless_object, build_top_fields, hobj, dictify, dict_insert,
      show normalize_field_name "inner" = "inner" from by decide]
  · simp [missing_props_array_node, propertyless_object, get_field_type]

/-! ## Nested-required lemmas -/

theorem gft_default (ty fmt : Option String) (items : Option SchemaNode)
    (props : Option (List (String × SchemaNode))) (req : List String)
    (title descr : Option String)
    (h1 : ty ≠ some "string") (h2 : ty ≠ some "number")
    (h3 : ty ≠ some "boolean") (h4 : ty ≠ some "array")
    (h5 : ty ≠ some "object") :
    get_field_type (.mk ty fmt items props req title descr) = .ok .any := by
  rw [get_field_type.eq_def]
  split <;> simp_all

theorem gft_no_opt_all :
    (∀ s : SchemaNode, ∀ t, get_field_type s = .ok t → no_opt t = true) ∧
    (∀ ps : List (String × SchemaNode), ∀ fs,
      build_nested_fields ps = .ok fs → no_opt_fields fs = true) := by
  refine get_field_type.mutual_induct
    (fun s => ∀ t, get_field_type s = .ok t → no_opt t = true)
    (fun ps => ∀ fs, build_nested_fields ps = .ok fs → no_opt_fields fs = true)
    ?_ ?_ ?_ ?_ ?_ ?_ ?_ ?_ ?_ ?_ ?_ ?_ ?_ ?_ ?_ ?_ ?_ ?_
  · intro items props req title descr t h
    simp [get_field_type] at h
    subst h
    simp [no_opt]
  · intro fmt items props req title descr hfmt t h
    simp [get_field_type, hfmt] at h
    subst h
    simp [no_opt]
  · intro fmt items props req title descr t h
    simp [get_field_type] at h
    subst h
    simp [no_opt]
  · intro fmt items props req title descr t h
    simp [get_field_type] at h
    subst h
    simp [no_opt]
  · intro fmt props req title descr ifmt iitems ireq ititle idescr t h
    simp [get_field_type] at h
  · intro fmt props req title descr ifmt iitems ireq ititle idescr ps e hbn ih2 t h
    simp [get_field_type, hbn] at h
  · intro fmt props req title descr ifmt iitems ireq ititle idescr ps fs hbn ih2 t h
    simp [get_field_type, hbn] at h
    subst h
    have h2 := no_opt_fields_dictify (ih2 fs hbn)
    simp [no_opt, h2]
  · intro fmt props req title descr ity ifmt iitems iprops ireq ititle idescr hne e hge ih1 t h
    rw [get_field_type.eq_def] at h
    simp [hne, hge] at h
  · intro fmt props req title descr ity ifmt iitems iprops ireq ititle idescr hne t0 hgo ih1 t h
    rw [get_field_type.eq_def] at h
    simp [hne, hgo] at h
    subst h
    simp only [no_opt]
    exact ih1 t0 hgo
  · intro fmt props req title descr t h
    simp [get_field_type] at h
    subst h
    simp [no_opt]
  · intro fmt items req title descr ps e hbn ih2 t h
    simp [get_field_type, hbn] at h
  · intro fmt items req title descr ps fs hbn ih2 t h
    simp [get_field_type, hbn] at h
    subst h
    have h2 := no_opt_fields_dictify (ih2 fs hbn)
    simp [no_opt, h2]
  · intro fmt items req title descr t h
    simp [get_field_type] at h
    subst h
    simp [no_opt, no_opt_fields, dictify]
  · intro ty fmt items props req title descr h1 h2 h3 h4 h5 t h
    rw [gft_default ty fmt items props req title descr h1 h2 h3 h4 h5] at h
    injection h with h6
    rw [← h6]
    simp [no_opt]
  · intro fs h
    simp [build_nested_fields] at h
    subst h
    simp [no_opt_fields]
  · intro n s rest e hge ih1 fs h
    simp [build_nested_fields, hge] at h
  · intro n s rest t hgt e hbe ih1 ih2 fs h
    simp [build_nested_fields, hgt, hbe] at h
  · intro n s rest t hgt fs2 hbo ih1 ih2 fs h
    simp [build_nested_fields, hgt, hbo] at h
    subst h
    simp [no_opt_fields, ih1 t hgt, ih2 fs2 hbo]

theorem sdescr_erase (s : SchemaNode) : sdescr (erase_req s) = sdescr s := by
  obtain ⟨ty, fmt, items, props, req, title, descr⟩ := s
  simp [erase_req, sdescr]

theorem gft_array_item (ity ifmt : Option String) (iitems : Option SchemaNode)
    (iprops : Option (List (String × SchemaNode))) (ireq : List String)
    (ititle idescr fmt : Option String)
    (props : Option (List (String × SchemaNode))) (req : List String)
    (title descr : Option String) (hne : ity ≠ some "object") :
    get_field_type (.mk (some "array") fmt
        (some (.mk ity ifmt iitems iprops ireq ititle idescr)) props req title descr) =
      match get_field_type (.mk ity ifmt iitems iprops ireq ititle idescr) with
      | .error e => .error e
      | .ok t => .ok (.list t) := by
  rw [get_field_type.eq_def]
  simp [hne]

theorem gft_erase_all :
    (∀ s : SchemaNode, get_field_type (erase_req s) = get_field_type s) ∧
    (∀ ps : List (String × SchemaNode),
      build_nested_fields (erase_req_list ps) = build_nested_fields ps) := by
  refine get_field_type.mutual_induct
    (fun s => get_field_type (erase_req s) = get_field_type s)
    (fun ps => build_nested_fields (erase_req_list ps) = build_nested_fields ps)
    ?_ ?_ ?_ ?_ ?_ ?_ ?_ ?_ ?_ ?_ ?_ ?_ ?_ ?_ ?_ ?_ ?_ ?_
  · intro items props req title descr
    simp [erase_req, erase_req_item, erase_req_props, get_field_type]
  · intro fmt items props req title descr hfmt
    simp [erase_req, erase_req_item, erase_req_props, get_field_type, hfmt]
  · intro fmt items props req title descr
    simp [erase_req, erase_req_item, erase_req_props, get_field_type]
  · intro fmt items props req title descr
    simp [erase_req, erase_req_item, erase_req_props, get_field_type]
  · intro fmt props req title descr ifmt iitems ireq ititle idescr
    simp [erase_req, erase_req_item, erase_req_props, get_field_type]
  · intro fmt props req title descr ifmt iitems ireq ititle idescr ps e hbn ih2
    simp [erase_req, erase_req_item, erase_req_props, get_field_type, ih2, hbn]
  · intro fmt props req title descr ifmt iitems ireq ititle idescr ps fs hbn ih2
    simp [erase_req, erase_req_item, erase_req_props, get_field_type, ih2, hbn]
  · intro fmt props req title descr ity ifmt iitems iprops ireq ititle idescr hne e hge ih1
    rw [show erase_req (SchemaNode.mk (some "array") fmt
        (some (SchemaNode.mk ity ifmt iitems iprops ireq ititle idescr)) props req title descr) =
      SchemaNode.mk (some "array") fmt
        (some (SchemaNode.mk ity ifmt (erase_req_item iitems) (erase_req_props iprops)
          [] ititle idescr)) (erase_req_props props) [] title descr from by
        simp [erase_req, erase_req_item]]
    rw [gft_array_item ity ifmt (erase_req_item iitems) (erase_req_props iprops)
      [] ititle idescr fmt (erase_req_props props) [] title descr hne]
    rw [gft_array_item ity ifmt iitems iprops ireq ititle idescr fmt props req
      title descr hne]
    have hih : get_field_type (SchemaNode.mk ity ifmt (erase_req_item iitems)
        (erase_req_props iprops) [] ititle idescr) =
        get_field_type (SchemaNode.mk ity ifmt iitems iprops ireq ititle idescr) := by
      have := ih1
      simpa [erase_req, erase_req_item, erase_req_props] using this
    rw [hih]
  · intro fmt props req title descr ity ifmt iitems iprops ireq ititle idescr hne t0 hgo ih1
    rw [show erase_req (SchemaNode.mk (some "array") fmt
        (some (SchemaNode.mk ity ifmt iitems iprops ireq ititle idescr)) props req title descr) =
      SchemaNode.mk (some "array") fmt
        (some (SchemaNode.mk ity ifmt (erase_req_item iitems) (erase_req_props iprops)
          [] ititle idescr)) (erase_req_props props) [] title descr from by
        simp [erase_req, erase_req_item]]
    rw [gft_array_item ity ifmt (erase_req_item iitems) (erase_req_props iprops)
      [] ititle idescr fmt (erase_req_props props) [] title descr hne]
    rw [gft_array_item ity ifmt iitems iprops ireq ititle idescr fmt props req
      title descr hne]
    have hih : get_field_type (SchemaNode.mk ity ifmt (erase_req_item iitems)
        (erase_req_props iprops) [] ititle idescr) =
        get_field_type (SchemaNode.mk ity ifmt iitems iprops ireq ititle idescr) := by
      have := ih1
      simpa [erase_req, erase_req_item, erase_req_props] using this
    rw [hih]
  · intro fmt props req title descr
    simp [erase_req, erase_req_item, erase_req_props, get_field_type]
  · intro fmt items req title descr ps e hbn ih2
    simp [erase_req, erase_req_item, erase_req_props, get_field_type, ih2, hbn]
  · intro fmt items req title descr ps fs hbn ih2
    simp [erase_req, erase_req_item, erase_req_props, get_field_type, ih2, hbn]
  · intro fmt items req title descr
    simp [erase_req, erase_req_item, erase_req_props, get_field_type]
  · intro ty fmt items props req title descr h1 h2 h3 h4 h5
    rw [show erase_req (SchemaNode.mk ty fmt items props req title descr) =
      SchemaNode.mk ty fmt (erase_req_item items) (erase_req_props props)
        [] title descr from by simp [erase_req]]
    rw [gft_default ty fmt (erase_req_item items) (erase_req_props props)
      [] title descr h1 h2 h3 h4 h5]
    rw [gft_default ty fmt items props req title descr h1 h2 h3 h4 h5]
  · simp [erase_req_list, build_nested_fields]
  · intro n s rest e hge ih1
    simp [erase_req_list, build_nested_fields, ih1, hge]
  · intro n s rest t hgt e hbe ih1 ih2
    simp [erase_req_list, build_nested_fields, ih1, ih2, hgt, hbe]
  · intro n s rest t hgt fs2 hbo ih1 ih2
    simp [erase_req_list, build_nested_fields, ih1, ih2, hgt, hbo, sdescr_erase]

theorem btf_erase (required_fields : List String) :
    ∀ props : List (String × SchemaNode),
      build_top_fields required_fields (erase_req_list props) =
        build_top_fields required_fields props
  | [] => by simp [erase_req_list]
  | (n, s) :: rest => by
    simp [erase_req_list, build_top_fields, gft_erase_all.1 s, sdescr_erase,
      btf_erase required_fields rest]

/-! ## Claim C9 -/

/-- Claim C9: optionality from `required` applies only to top-level
properties: the compiler never produces an `Optional` wrapper inside any
nested object or array-item model, compilation of field types is invariant
under erasing every `required` list in the subtree, and the whole model
compilation is invariant under erasing the `required` lists of all property
subtrees (only the top-level list matters). -/
theorem c9_nested_required_ignored :
    (∀ (s : SchemaNode) (t : FieldType),
      get_field_type s = .ok t → no_opt t = true) ∧
    (∀ s : SchemaNode, get_field_type (erase_req s) = get_field_type s) ∧
    (∀ schema : SchemaNode,
      create_model_from_schema (erase_nested_req schema) =
        create_model_from_schema schema) := by
  refine ⟨fun s t h => gft_no_opt_all.1 s t h, gft_erase_all.1, fun schema => ?_⟩
  obtain ⟨ty, fmt, items, props, req, title, descr⟩ := schema
  rcases props with _ | ps
  · simp [erase_nested_req, erase_req_props]
  · simp [erase_nested_req, erase_req_props, create_model_from_schema,
      sprops, sreq, stitle, btf_erase]

/-- Witness for C9: a plain string schema node compiles to a field type
with no `Optional` wrapper anywhere. -/
theorem c9_witness :
    get_field_type string_node = Except.ok FieldType.str ∧
    no_opt FieldType.str = true :=
  ⟨by simp [string_node, get_field_type],
   c9_nested_required_ignored.1 string_node FieldType.str
     (by simp [string_node, get_field_type])⟩
